import Mathlib

/-!
Verification development for the `dxf2geojson` converter
(src/pythonScript/dxf2geojson.py).

The converter extracts geometries from DXF entities (POINT, LWPOLYLINE,
POLYLINE, LINE, CIRCLE, ARC), normalizes polylines (duplicate-vertex removal,
ring closure, Polygon/LineString classification), reprojects coordinates
while keeping Z, and writes one GeoJSON file per input file.

Shallow embedding conventions:
* machine floats are modelled as `ℚ` where the code only compares, adds and
  copies coordinates (polyline normalization, the coordinate transformer),
  and as `ℝ` where the code calls `math.cos` / `math.sin` / `math.pi`
  (circle and arc tessellation);
* the projection library call `self.transformer.transform(x, y)` is an
  opaque pure function `f : ℚ → ℚ → ℚ × ℚ`;
* Python exceptions are modelled with `Except String`;
* per-entity metadata (layer, color, z statistics) is carried by the code
  into the `properties` dict only; no claim mentions it, so features are
  modelled by their geometry.
-/

namespace Dxf2Geojson

/-- Tolerance `1e-8` used by `_extract_polyline` for duplicate-vertex removal
and for the first/last coincidence test. -/
def tol : ℚ := 1 / 100000000

/-- One 3D coordinate `[x, y, z]` as built by `coords_3d.append([x, y, z])`. -/
structure V3 where
  x : ℚ
  y : ℚ
  z : ℚ
deriving DecidableEq, Repr

/-- Default vertex used only to totalize `headD` / `getLastD` in statements. -/
def v0 : V3 := ⟨0, 0, 0⟩

/-- Componentwise closeness test: the code's
`all(abs(a - b) < 1e-8 for a, b in zip(coord, unique_coords[-1]))`
on two 3-element coordinate lists. -/
def closeV (a b : V3) : Prop :=
  |a.x - b.x| < tol ∧ |a.y - b.y| < tol ∧ |a.z - b.z| < tol

instance (a b : V3) : Decidable (closeV a b) :=
  inferInstanceAs (Decidable (_ ∧ _ ∧ _))

/-- Scanning tail of the duplicate-removal loop in `_extract_polyline`
(lines 309-312): `last` is `unique_coords[-1]`, the most recently retained
vertex; a candidate within `tol` of it on all three axes is skipped,
otherwise it is appended and becomes the new last retained vertex. -/
def dedupAux (last : V3) : List V3 → List V3
  | [] => []
  | c :: cs => if closeV c last then dedupAux last cs else c :: dedupAux c cs

/-- The duplicate-removal loop: `unique_coords` starts empty, so the first
vertex is always retained (`if not unique_coords or ...`). -/
def dedup : List V3 → List V3
  | [] => []
  | c :: cs => c :: dedupAux c cs

/-- Ring-closure step of `_extract_polyline` (lines 321-323): when the closed
flag is set, at least 3 vertices survived deduplication, and the first and
last retained vertices are not componentwise within `tol`, a copy of the
first vertex is appended. -/
def closeRing (isClosed : Bool) (u : List V3) : List V3 :=
  match u with
  | [] => []
  | h :: t =>
    if isClosed = true ∧ 3 ≤ (h :: t).length ∧ ¬ closeV h ((h :: t).getLastD h)
    then (h :: t) ++ [h]
    else h :: t

/-- Geometry part of the feature dict built by `_extract_polyline`:
`"Polygon"` carries `[unique_coords]` (a singleton ring list), `"LineString"`
carries `unique_coords` directly. -/
inductive PolyGeom
  | polygon (rings : List (List V3))
  | lineString (pts : List V3)
deriving DecidableEq, Repr

/-- Normalization core of `_extract_polyline` (lines 304-338): empty input
yields `None` (`if not coords_3d: return None`); otherwise deduplicate, close
the ring, and classify as Polygon exactly when the closed flag is set and at
least 4 vertices remain after the closure step. -/
def extract_polyline (isClosed : Bool) (coords : List V3) : Option PolyGeom :=
  if coords = [] then none
  else
    let u2 := closeRing isClosed (dedup coords)
    if isClosed = true ∧ 4 ≤ u2.length then some (.polygon [u2])
    else some (.lineString u2)

/-- Runtime type of the third component of an LWPOLYLINE point tuple, as
discriminated by `isinstance(point[2], (bool, int))` (line 283). -/
inductive PyVal
  | pfloat (q : ℚ)
  | pint (n : ℤ)
  | pbool (b : Bool)
deriving DecidableEq, Repr

/-- One LWPOLYLINE point tuple: `x`, `y`, and `point[2]` when the tuple has
more than two components (`len(point) > 2`). -/
structure LWPoint where
  x : ℚ
  y : ℚ
  third : Option PyVal
deriving DecidableEq, Repr

/-- Z resolution for one LWPOLYLINE vertex (line 283):
`z = point[2] if len(point) > 2 and not isinstance(point[2], (bool, int))
else base_elevation`. -/
def lwVertex (base : ℚ) (p : LWPoint) : V3 :=
  ⟨p.x, p.y,
    match p.third with
    | some (.pfloat q) => q
    | _ => base⟩

/-- The `entity.dxf.elevation` attribute as discriminated by the
`isinstance` / `hasattr` chain in `_extract_polyline` (lines 268-275):
a number, a vector with a `.z` field, a list or tuple, or absent. -/
inductive ElevAttr
  | eNum (q : ℚ)
  | eVec (x y z : ℚ)
  | eList (l : List ℚ)
  | eAbsent
deriving DecidableEq, Repr

/-- Base-elevation resolution (lines 268-275). `base_elevation` starts at
`0.0`; a numeric attribute, a `.z` field, or element 2 of a list or tuple
overrides it. Indexing a too-short list raises, which the surrounding `try`
turns into `None`; that is modelled by the `none` result. -/
def baseElevation? : ElevAttr → Option ℚ
  | .eNum q => some q
  | .eVec _ _ z => some z
  | .eList l => l.get? 2
  | .eAbsent => some 0

/-- Coordinate list collected by the LWPOLYLINE branch (lines 279-285). -/
def lwpolylineCoords (base : ℚ) (pts : List LWPoint) : List V3 :=
  pts.map (lwVertex base)

/-- LWPOLYLINE extraction: resolve the base elevation, collect the vertex
list, then normalize; an exception while resolving the elevation is caught
by the method's `try` and yields `None`. -/
def extract_lwpolyline (elev : ElevAttr) (isClosed : Bool)
    (pts : List LWPoint) : Option PolyGeom :=
  match baseElevation? elev with
  | none => none
  | some base => extract_polyline isClosed (lwpolylineCoords base pts)

/-- GeoJSON geometry as produced by `shapely.geometry.mapping` and consumed
by `CoordinateTransformer.transform_geometry`: a `Point` holds one position,
a `LineString` a list of positions, a `Polygon` a list of rings. Positions
are kept as raw lists because `transform_geometry` checks their arity. -/
inductive Geometry
  | point (coord : List ℚ)
  | lineString (coords : List (List ℚ))
  | polygon (rings : List (List (List ℚ)))
deriving DecidableEq, Repr

/-- Geometry of the feature built from a POINT entity by `_extract_point`:
`Point(loc.x, loc.y, loc.z)`, a single position. -/
def extract_point (x y z : ℚ) : Geometry := .point [x, y, z]

/-- Geometry of the feature built from a LINE entity by `_extract_line`:
a 2-vertex LineString from the start and end locations. -/
def extract_line (s e : V3) : Geometry :=
  .lineString [[s.x, s.y, s.z], [e.x, e.y, e.z]]

/-- Per-coordinate body of the transform loops (lines 470-475 and 481-486):
a position that does not have exactly 3 components is skipped (`continue`),
otherwise `(x, y)` is passed to the transformer and `z` is kept. -/
def transformCoord (f : ℚ → ℚ → ℚ × ℚ) : List ℚ → Option (List ℚ)
  | [x, y, z] => some [(f x y).1, (f x y).2, z]
  | _ => none

/-- Total description of what `transformCoord` does to a well-formed
3-component position; used to state structure preservation. -/
def transformCoordTotal (f : ℚ → ℚ → ℚ × ℚ) : List ℚ → List ℚ
  | [x, y, z] => [(f x y).1, (f x y).2, z]
  | c => c

/-- Geometry part of `CoordinateTransformer.transform_geometry`
(lines 466-489): the method has branches only for `geom_type == "Polygon"`
and `geom_type == "LineString"`; any other geometry type — including
`"Point"` — matches neither branch and the feature is returned with its
coordinates untouched. -/
def transform_geometry (f : ℚ → ℚ → ℚ × ℚ) : Geometry → Geometry
  | .polygon rings => .polygon (rings.map fun ring => ring.filterMap (transformCoord f))
  | .lineString cs => .lineString (cs.filterMap (transformCoord f))
  | .point c => .point c

/-- Accumulator of `DXFProcessor`: the growing `self.features` list plus the
log, which receives one entry per caught per-entity exception
(`logging.error` in the `except` arm of `_process_entity`). The feature type
is a parameter because the claims about control flow do not depend on it. -/
structure PState (α : Type) where
  features : List α
  logs : List String
deriving DecidableEq, Repr

/-- Result of the `try` body of `_process_entity` for one entity:
`Except.error msg` models a raised exception, `Except.ok none` an entity
that is unsupported or whose extractor returned `None` (nothing appended),
`Except.ok (some f)` an entity contributing one feature. -/
def processEntity {α : Type} (s : PState α) (r : Except String (Option α)) :
    PState α :=
  match r with
  | .error msg => { s with logs := s.logs ++ [msg] }
  | .ok none => s
  | .ok (some f) => { s with features := s.features ++ [f] }

/-- The entity loop of `DXFProcessor.process` (lines 438-439): every entity
is handed to `_process_entity`, whose internal `try`/`except` guarantees the
loop itself never sees an exception. -/
def processEntities {α : Type} (s : PState α)
    (rs : List (Except String (Option α))) : PState α :=
  rs.foldl processEntity s

/-- One input file for the batch: either it fails to open or parse
(`ezdxf.readfile` raising in `DXFProcessor.__init__`, re-raised by
`process_dxf_file`), or it yields a list of per-entity outcomes. -/
abbrev FileInput (α : Type) := Except String (List (Except String (Option α)))

/-- File-level behaviour of `process_dxf_file`: an open or parse failure is
re-raised to the caller (the bare `raise` at line 547); otherwise all
entities are processed starting from an empty feature list. -/
def processFile {α : Type} (f : FileInput α) : Except String (List α) :=
  match f with
  | .error e => .error e
  | .ok rs => .ok (processEntities ⟨[], []⟩ rs).features

/-- The batch loop of `main` (lines 585-586) inside its single surrounding
`try` (lines 550-593): each file is processed in order; an exception raised
by `process_dxf_file` propagates out of the `for` loop into the `except`
arm, which logs the error and returns, ending the batch. The result pairs
the per-file outputs actually produced with the terminating error, if any. -/
def runBatch {α : Type} : List (FileInput α) → List (List α) × Option String
  | [] => ([], none)
  | f :: fs =>
    match processFile f with
    | .error e => ([], some e)
    | .ok feats => (feats :: (runBatch fs).1, (runBatch fs).2)

/-- Degrees-to-radians conversion, `math.radians` (lines 397-398). -/
noncomputable def radians (d : ℝ) : ℝ := d * (Real.pi / 180)

/-- One vertex of the circle tessellation (lines 375-380): 33 vertices at
angles `(i * 2 * pi) / 32`, all sharing the center's Z. -/
noncomputable def circleVertex (cx cy cz r : ℝ) (i : ℕ) : ℝ × ℝ × ℝ :=
  let angle := (i * (2 * Real.pi)) / 32
  (cx + r * Real.cos angle, cy + r * Real.sin angle, cz)

/-- The circle point list built by the CIRCLE branch of `_extract_curve`:
`for i in range(num_points + 1)` with `num_points = 32`. -/
noncomputable def circlePoints (cx cy cz r : ℝ) : List (ℝ × ℝ × ℝ) :=
  (List.range 33).map (circleVertex cx cy cz r)

/-- Wraparound adjustment of the ARC branch (lines 401-402): after degree to
radian conversion, if the end angle is smaller than the start angle, `2π` is
added to the end angle. -/
noncomputable def arcAdjustedEnd (sa ea : ℝ) : ℝ :=
  if ea < sa then ea + 2 * Real.pi else ea

/-- Angle of vertex `i` of the arc tessellation (line 409):
`start_angle + (i * (end_angle - start_angle)) / num_points` with
`num_points = 16` and the adjusted end angle. -/
noncomputable def arcAngle (sa ea : ℝ) (i : ℕ) : ℝ :=
  sa + (i * (arcAdjustedEnd sa ea - sa)) / 16

/-- One vertex of the arc tessellation (lines 408-413), Z at the center's Z. -/
noncomputable def arcVertex (cx cy cz r sa ea : ℝ) (i : ℕ) : ℝ × ℝ × ℝ :=
  (cx + r * Real.cos (arcAngle sa ea i), cy + r * Real.sin (arcAngle sa ea i), cz)

/-- The arc point list: `for i in range(num_points + 1)` with `num_points = 16`,
operating on the radian-converted angles. -/
noncomputable def arcPoints (cx cy cz r sa ea : ℝ) : List (ℝ × ℝ × ℝ) :=
  (List.range 17).map (arcVertex cx cy cz r sa ea)

/-- Real-coordinate geometry for the tessellated curves. -/
inductive RGeometry
  | lineString (pts : List (ℝ × ℝ × ℝ))
  | polygon (rings : List (List (ℝ × ℝ × ℝ)))

/-- Geometry of the feature built by the CIRCLE branch of `_extract_curve`:
a Polygon whose coordinates are the singleton ring `[points]`. -/
noncomputable def extract_circle (cx cy cz r : ℝ) : RGeometry :=
  .polygon [circlePoints cx cy cz r]

/-- Geometry of the feature built by the ARC branch of `_extract_curve`:
a LineString over the tessellated points, with the raw degree angles
converted by `math.radians` first. -/
noncomputable def extract_arc (cx cy cz r saDeg eaDeg : ℝ) : RGeometry :=
  .lineString (arcPoints cx cy cz r (radians saDeg) (radians eaDeg))

/-- A vertex is within tolerance of itself. -/
theorem closeV_refl (a : V3) : closeV a a := by
  refine ⟨?_, ?_, ?_⟩ <;> simp [tol]

/-- The deduplication scan only ever skips elements: its output is a sublist
of its input, in particular the relative order of retained vertices is the
input order. -/
theorem dedupAux_sublist (last : V3) (l : List V3) :
    List.Sublist (dedupAux last l) l := by
  induction l generalizing last with
  | nil => simp [dedupAux]
  | cons c cs ih =>
    rw [dedupAux]
    by_cases h : closeV c last
    · rw [if_pos h]
      exact (ih last).cons c
    · rw [if_neg h]
      exact (ih c).cons₂ c

/-- Order preservation for the full duplicate-removal pass. -/
theorem dedup_sublist (l : List V3) : List.Sublist (dedup l) l := by
  cases l with
  | nil => simp [dedup]
  | cons c cs =>
    rw [dedup]
    exact (dedupAux_sublist c cs).cons₂ c

/-- Every vertex emitted by the scan is farther than the tolerance from the
vertex that was last retained when the scan started, and consecutive emitted
vertices are farther than the tolerance from each other. -/
theorem dedupAux_chain (last : V3) (l : List V3) :
    List.Chain (fun u v => ¬ closeV v u) last (dedupAux last l) := by
  induction l generalizing last with
  | nil => exact List.Chain.nil
  | cons c cs ih =>
    rw [dedupAux]
    by_cases h : closeV c last
    · rw [if_pos h]
      exact ih last
    · rw [if_neg h]
      exact List.Chain.cons h (ih c)

/-- No two consecutive retained vertices are within the tolerance; together
with `dedup_sublist` this says a consecutive near-duplicate input pair can
never survive in full. -/
theorem dedup_chain (l : List V3) :
    List.Chain' (fun u v => ¬ closeV v u) (dedup l) := by
  cases l with
  | nil => simp [dedup]
  | cons c cs =>
    rw [dedup]
    exact dedupAux_chain c cs

/-- A list of length 3 is literally a triple. -/
theorem length_three_eq (c : List ℚ) (h : c.length = 3) :
    ∃ x y z, c = [x, y, z] := by
  match c, h with
  | [x, y, z], _ => exact ⟨x, y, z, rfl⟩

/-- On a list of well-formed 3-component positions the skipping transform
loop degenerates to a structure-preserving map. -/
theorem filterMap_transformCoord (f : ℚ → ℚ → ℚ × ℚ) (l : List (List ℚ))
    (h : ∀ c ∈ l, c.length = 3) :
    l.filterMap (transformCoord f) = l.map (transformCoordTotal f) := by
  induction l with
  | nil => simp
  | cons c cs ih =>
    obtain ⟨x, y, z, rfl⟩ := length_three_eq c (h c (List.mem_cons_self c cs))
    rw [List.filterMap_cons, List.map_cons]
    have ht : ∀ a ∈ cs, a.length = 3 := fun a ha => h a (List.mem_cons_of_mem _ ha)
    simp [transformCoord, transformCoordTotal, ih ht]

/-- Unfolding equation for one step of the entity loop. -/
theorem processEntities_cons {α : Type} (s : PState α)
    (r : Except String (Option α)) (rs : List (Except String (Option α))) :
    processEntities s (r :: rs) = processEntities (processEntity s r) rs := rfl

/-- Features already accumulated are never modified or removed by later
entity processing: the final feature list is the accumulated list followed
by whatever the remaining entities contribute from scratch. -/
theorem processEntities_features {α : Type} (s : PState α)
    (rs : List (Except String (Option α))) :
    (processEntities s rs).features =
      s.features ++ (processEntities ⟨[], []⟩ rs).features := by
  induction rs generalizing s with
  | nil => simp [processEntities]
  | cons r rs ih =>
    have hstep : (processEntity s r).features =
        s.features ++ (processEntity (⟨[], []⟩ : PState α) r).features := by
      cases r with
      | error msg => simp [processEntity]
      | ok o => cases o <;> simp [processEntity]
    rw [processEntities_cons, processEntities_cons, ih (processEntity s r),
      ih (processEntity ⟨[], []⟩ r), hstep, List.append_assoc]

/-- C1. The claim says `CoordinateTransformer.transform_geometry` maps a
Point feature's single vertex `(x, y, z)` to the transformed `(x, y)` with
`z` unchanged. The code's method body only handles the geometry types
`"Polygon"` and `"LineString"`; a `"Point"` geometry matches neither branch
and the feature is returned with its coordinates untouched. At the point
feature `(0, 0, 5)` with the transformer `(x, y) ↦ (x + 1, y + 2)`, the code
returns `(0, 0, 5)` instead of the transformed `(1, 2, 5)` the claim
requires. -/
theorem C1_point_not_transformed :
    transform_geometry (fun x y => (x + 1, y + 2)) (extract_point 0 0 5)
      = Geometry.point [0, 0, 5] ∧
    Geometry.point [0, 0, 5] ≠ Geometry.point [0 + 1, 0 + 2, 5] :=
  ⟨rfl, by norm_num⟩

/-- C2, counterexample. A closed polyline whose deduplicated vertex list is
`[(0,0,0), (1,0,0), (5e-9,0,0)]` has 3 distinct vertices, but its first and
last retained vertices are componentwise within `1e-8`, so no closing copy
is appended and only 3 vertices remain: the entity is classified as a
LineString, not the Polygon with `distinct + 1` vertices the claim
promises. -/
theorem C2_counterexample :
    (dedup [⟨0, 0, 0⟩, ⟨1, 0, 0⟩, ⟨5 / 1000000000, 0, 0⟩]).length = 3 ∧
    closeV (⟨0, 0, 0⟩ : V3) ⟨5 / 1000000000, 0, 0⟩ ∧
    extract_polyline true [⟨0, 0, 0⟩, ⟨1, 0, 0⟩, ⟨5 / 1000000000, 0, 0⟩]
      = some (PolyGeom.lineString [⟨0, 0, 0⟩, ⟨1, 0, 0⟩, ⟨5 / 1000000000, 0, 0⟩]) := by
  have hBA : ¬ closeV ⟨1, 0, 0⟩ ⟨0, 0, 0⟩ := by norm_num [closeV, tol, abs_lt]
  have hCB : ¬ closeV ⟨5 / 1000000000, 0, 0⟩ ⟨1, 0, 0⟩ := by
    norm_num [closeV, tol, abs_lt]
  have hAC : closeV (⟨0, 0, 0⟩ : V3) ⟨5 / 1000000000, 0, 0⟩ := by
    norm_num [closeV, tol, abs_lt]
  have hd : dedup [⟨0, 0, 0⟩, ⟨1, 0, 0⟩, ⟨5 / 1000000000, 0, 0⟩]
      = [⟨0, 0, 0⟩, ⟨1, 0, 0⟩, ⟨5 / 1000000000, 0, 0⟩] := by
    simp [dedup, dedupAux, hBA, hCB]
  refine ⟨by rw [hd]; rfl, hAC, ?_⟩
  simp [extract_polyline, hd, closeRing, hAC]

/-- C2, amended: for a closed polyline whose deduplicated vertex list has at
least 3 vertices AND whose first and last retained vertices are not already
coincident within `1e-8` componentwise, normalization appends a copy of the
first vertex and emits a Polygon (one ring) whose first and last vertices
are coordinate-identical and whose vertex count is the deduplicated count
plus 1. -/
theorem C2_closed_polyline_amended (coords : List V3)
    (h3 : 3 ≤ (dedup coords).length)
    (hfar : ¬ closeV ((dedup coords).headD v0) ((dedup coords).getLastD v0)) :
    extract_polyline true coords
      = some (PolyGeom.polygon [dedup coords ++ [(dedup coords).headD v0]]) ∧
    (dedup coords ++ [(dedup coords).headD v0]).length = (dedup coords).length + 1 ∧
    (dedup coords ++ [(dedup coords).headD v0]).headD v0
      = (dedup coords ++ [(dedup coords).headD v0]).getLastD v0 := by
  rcases hdc : dedup coords with _ | ⟨h, t⟩
  · rw [hdc] at h3
    simp at h3
  · have hne : ¬ coords = [] := by
      intro hc
      rw [hc] at hdc
      simp [dedup] at hdc
    have hlen : 3 ≤ (h :: t).length := by rw [← hdc]; exact h3
    have hfar' : ¬ closeV h ((h :: t).getLastD h) := by
      rw [hdc] at hfar
      rw [List.getLastD_cons] at hfar ⊢
      simpa using hfar
    have hcr : closeRing true (h :: t) = (h :: t) ++ [h] := by
      simp only [closeRing]
      rw [if_pos ⟨by trivial, hlen, hfar'⟩]
    have h4 : 4 ≤ ((h :: t) ++ [h]).length := by
      simp only [List.length_append, List.length_cons, List.length_nil] at hlen ⊢
      omega
    refine ⟨?_, by simp, ?_⟩
    · simp only [extract_polyline, if_neg hne, hdc, hcr, List.headD_cons,
        List.cons_append]
      rw [if_pos ⟨by trivial, h4⟩]
    · simp only [List.headD_cons, ← List.cons_append]
      rw [List.getLastD_concat]
      rfl

/-- C2, witness: a concrete closed triangle far from the tolerance. -/
theorem C2_witness :
    3 ≤ (dedup [⟨0, 0, 0⟩, ⟨1, 0, 0⟩, ⟨0, 1, 0⟩]).length ∧
    ¬ closeV ((dedup [⟨0, 0, 0⟩, ⟨1, 0, 0⟩, ⟨0, 1, 0⟩]).headD v0)
        ((dedup [⟨0, 0, 0⟩, ⟨1, 0, 0⟩, ⟨0, 1, 0⟩]).getLastD v0) ∧
    extract_polyline true [⟨0, 0, 0⟩, ⟨1, 0, 0⟩, ⟨0, 1, 0⟩]
      = some (PolyGeom.polygon [dedup [⟨0, 0, 0⟩, ⟨1, 0, 0⟩, ⟨0, 1, 0⟩]
          ++ [(dedup [⟨0, 0, 0⟩, ⟨1, 0, 0⟩, ⟨0, 1, 0⟩]).headD v0]]) := by
  have hd : dedup [⟨0, 0, 0⟩, ⟨1, 0, 0⟩, ⟨0, 1, 0⟩]
      = [⟨0, 0, 0⟩, ⟨1, 0, 0⟩, ⟨0, 1, 0⟩] := by
    have h1 : ¬ closeV ⟨1, 0, 0⟩ ⟨0, 0, 0⟩ := by norm_num [closeV, tol, abs_lt]
    have h2 : ¬ closeV ⟨0, 1, 0⟩ ⟨1, 0, 0⟩ := by norm_num [closeV, tol, abs_lt]
    simp [dedup, dedupAux, h1, h2]
  have h3 : 3 ≤ (dedup [⟨0, 0, 0⟩, ⟨1, 0, 0⟩, ⟨0, 1, 0⟩]).length := by rw [hd]; simp
  have hfar : ¬ closeV ((dedup [⟨0, 0, 0⟩, ⟨1, 0, 0⟩, ⟨0, 1, 0⟩]).headD v0)
      ((dedup [⟨0, 0, 0⟩, ⟨1, 0, 0⟩, ⟨0, 1, 0⟩]).getLastD v0) := by
    rw [hd]
    norm_num [closeV, tol, abs_lt]
  exact ⟨h3, hfar,
    (C2_closed_polyline_amended [⟨0, 0, 0⟩, ⟨1, 0, 0⟩, ⟨0, 1, 0⟩] h3 hfar).1⟩

/-- C3, counterexample. For the vertex list
`[(0,0,0), (4e-9,0,0), (8e-9,0,0)]` the second and third vertices differ by
less than `1e-8` in all three axes, yet NEITHER survives: both are dropped
against the first retained vertex, so it is not true that exactly one of a
consecutive near-duplicate pair survives. -/
theorem C3_counterexample :
    closeV (⟨8 / 1000000000, 0, 0⟩ : V3) ⟨4 / 1000000000, 0, 0⟩ ∧
    dedup [⟨0, 0, 0⟩, ⟨4 / 1000000000, 0, 0⟩, ⟨8 / 1000000000, 0, 0⟩]
      = [⟨0, 0, 0⟩] ∧
    (⟨4 / 1000000000, 0, 0⟩ : V3)
      ∉ dedup [⟨0, 0, 0⟩, ⟨4 / 1000000000, 0, 0⟩, ⟨8 / 1000000000, 0, 0⟩] ∧
    (⟨8 / 1000000000, 0, 0⟩ : V3)
      ∉ dedup [⟨0, 0, 0⟩, ⟨4 / 1000000000, 0, 0⟩, ⟨8 / 1000000000, 0, 0⟩] := by
  have h1 : closeV (⟨4 / 1000000000, 0, 0⟩ : V3) ⟨0, 0, 0⟩ := by
    norm_num [closeV, tol, abs_lt]
  have h2 : closeV (⟨8 / 1000000000, 0, 0⟩ : V3) ⟨0, 0, 0⟩ := by
    norm_num [closeV, tol, abs_lt]
  have hd : dedup [⟨0, 0, 0⟩, ⟨4 / 1000000000, 0, 0⟩, ⟨8 / 1000000000, 0, 0⟩]
      = [⟨0, 0, 0⟩] := by
    simp [dedup, dedupAux, h1, h2]
  refine ⟨by norm_num [closeV, tol, abs_lt], hd, ?_, ?_⟩ <;>
    · rw [hd]
      norm_num [V3.mk.injEq]

/-- C3, amended: scanning in order, a vertex is dropped exactly when all
three coordinates differ from the immediately preceding retained vertex by
less than `1e-8`; hence AT MOST one of a consecutive near-duplicate pair
survives (both are dropped when both are within tolerance of the last
retained vertex), the retained vertices are a sublist of the input (order
preserved), and no two consecutive retained vertices are within the
tolerance. When the first of the pair was itself just retained, the second
is dropped and scanning continues as if it were absent. -/
theorem C3_dedup_amended (l : List V3) (a b : V3) (cs : List V3)
    (hab : closeV b a) :
    List.Sublist (dedup l) l ∧
    List.Chain' (fun u v => ¬ closeV v u) (dedup l) ∧
    dedup (a :: b :: cs) = dedup (a :: cs) := by
  refine ⟨dedup_sublist l, dedup_chain l, ?_⟩
  simp [dedup, dedupAux, hab]

/-- C3, witness: a concrete pair within the tolerance. -/
theorem C3_witness :
    closeV (⟨1 / 1000000000, 2, 3⟩ : V3) ⟨0, 2, 3⟩ ∧
    dedup [⟨0, 2, 3⟩, ⟨1 / 1000000000, 2, 3⟩] = dedup [⟨0, 2, 3⟩] := by
  have hab : closeV (⟨1 / 1000000000, 2, 3⟩ : V3) ⟨0, 2, 3⟩ := by
    norm_num [closeV, tol, abs_lt]
  exact ⟨hab,
    (C3_dedup_amended [⟨0, 2, 3⟩, ⟨1 / 1000000000, 2, 3⟩] ⟨0, 2, 3⟩
      ⟨1 / 1000000000, 2, 3⟩ [] hab).2.2⟩

/-- When the closure step leaves at least 4 vertices on a closed entity, the
first and last vertices of the resulting ring are within the tolerance of
each other: either the closing copy was appended (they are equal) or it was
skipped precisely because they already were within the tolerance. -/
theorem closeRing_first_last (u : List V3)
    (h4 : 4 ≤ (closeRing true u).length) :
    closeV ((closeRing true u).headD v0) ((closeRing true u).getLastD v0) := by
  match u with
  | [] => simp [closeRing] at h4
  | h :: t =>
    simp only [closeRing] at h4 ⊢
    by_cases hc : (3 ≤ (h :: t).length ∧ ¬ closeV h ((h :: t).getLastD h))
    · rw [if_pos ⟨trivial, hc.1, hc.2⟩] at h4 ⊢
      have hh : ((h :: t) ++ [h]).headD v0 = h := rfl
      rw [hh, List.getLastD_concat]
      exact closeV_refl h
    · rw [if_neg (fun hcon => hc ⟨hcon.2.1, hcon.2.2⟩)] at h4 ⊢
      have h3 : 3 ≤ (h :: t).length := by
        simp only [List.length_cons] at h4 ⊢
        omega
      have hcl : closeV h ((h :: t).getLastD h) := by
        by_contra hn
        exact hc ⟨h3, hn⟩
      rw [List.headD_cons, List.getLastD_cons]
      rw [List.getLastD_cons] at hcl
      exact hcl

/-- Inversion for the Polygon outcome of `_extract_polyline`: the closed
flag was set, the single ring is the closure-step output, and it has at
least 4 vertices. -/
theorem extract_polyline_polygon (b : Bool) (c : List V3)
    (rings : List (List V3))
    (h : extract_polyline b c = some (PolyGeom.polygon rings)) :
    b = true ∧ rings = [closeRing true (dedup c)] ∧
      4 ≤ (closeRing true (dedup c)).length := by
  by_cases hc : c = []
  · simp [extract_polyline, hc] at h
  · simp only [extract_polyline, if_neg hc] at h
    by_cases hcond : (b = true ∧ 4 ≤ (closeRing b (dedup c)).length)
    · rw [if_pos hcond] at h
      obtain ⟨hb, hlen⟩ := hcond
      subst hb
      simp only [Option.some.injEq, PolyGeom.polygon.injEq] at h
      exact ⟨rfl, h.symm, hlen⟩
    · rw [if_neg hcond] at h
      simp at h

/-- Inversion for the LineString outcome of `_extract_polyline`: the emitted
vertex list is the closure-step output of a nonempty deduplicated list, so
it has at least one vertex. -/
theorem extract_polyline_lineString (b : Bool) (c : List V3) (pts : List V3)
    (h : extract_polyline b c = some (PolyGeom.lineString pts)) :
    1 ≤ pts.length := by
  by_cases hc : c = []
  · simp [extract_polyline, hc] at h
  · simp only [extract_polyline, if_neg hc] at h
    have hpts : pts = closeRing b (dedup c) := by
      by_cases hcond : (b = true ∧ 4 ≤ (closeRing b (dedup c)).length)
      · rw [if_pos hcond] at h
        simp at h
      · rw [if_neg hcond] at h
        simp only [Option.some.injEq, PolyGeom.lineString.injEq] at h
        exact h.symm
    rcases hd : dedup c with _ | ⟨x, xs⟩
    · rcases hcc : c with _ | ⟨y, ys⟩
      · exact absurd hcc hc
      · rw [hcc] at hd
        simp [dedup] at hd
    · rw [hpts, hd]
      cases b <;> simp only [closeRing] <;> split <;> simp

/-- C4, counterexample. Two normalized outputs violate the claimed shape
invariant: the not-closed polyline `[(0,0,0), (0,0,0)]` deduplicates to a
single vertex and is emitted as a 1-vertex LineString (the invariant demands
at least 2); and the closed polyline `[(0,0,0), (1,0,0), (0,1,0),
(5e-9,0,0)]` is emitted as a 4-vertex Polygon whose first and last vertices
are within the tolerance but NOT coordinate-identical (the invariant demands
`first == last`). -/
theorem C4_counterexample :
    extract_polyline false [⟨0, 0, 0⟩, ⟨0, 0, 0⟩]
      = some (PolyGeom.lineString [⟨0, 0, 0⟩]) ∧
    extract_polyline true [⟨0, 0, 0⟩, ⟨1, 0, 0⟩, ⟨0, 1, 0⟩, ⟨5 / 1000000000, 0, 0⟩]
      = some (PolyGeom.polygon
          [[⟨0, 0, 0⟩, ⟨1, 0, 0⟩, ⟨0, 1, 0⟩, ⟨5 / 1000000000, 0, 0⟩]]) ∧
    (⟨0, 0, 0⟩ : V3) ≠ ⟨5 / 1000000000, 0, 0⟩ := by
  refine ⟨?_, ?_, by norm_num [V3.mk.injEq]⟩
  · have h11 : closeV (⟨0, 0, 0⟩ : V3) ⟨0, 0, 0⟩ := closeV_refl _
    have hd : dedup [⟨0, 0, 0⟩, ⟨0, 0, 0⟩] = [(⟨0, 0, 0⟩ : V3)] := by
      simp [dedup, dedupAux, h11]
    simp [extract_polyline, hd, closeRing]
  · have h21 : ¬ closeV ⟨1, 0, 0⟩ ⟨0, 0, 0⟩ := by norm_num [closeV, tol, abs_lt]
    have h32 : ¬ closeV ⟨0, 1, 0⟩ ⟨1, 0, 0⟩ := by norm_num [closeV, tol, abs_lt]
    have h43 : ¬ closeV ⟨5 / 1000000000, 0, 0⟩ ⟨0, 1, 0⟩ := by
      norm_num [closeV, tol, abs_lt]
    have h14 : closeV (⟨0, 0, 0⟩ : V3) ⟨5 / 1000000000, 0, 0⟩ := by
      norm_num [closeV, tol, abs_lt]
    have hd : dedup [⟨0, 0, 0⟩, ⟨1, 0, 0⟩, ⟨0, 1, 0⟩, ⟨5 / 1000000000, 0, 0⟩]
        = [⟨0, 0, 0⟩, ⟨1, 0, 0⟩, ⟨0, 1, 0⟩, ⟨5 / 1000000000, 0, 0⟩] := by
      simp [dedup, dedupAux, h21, h32, h43]
    simp [extract_polyline, hd, closeRing, h14]

/-- C4, amended shape invariant as the code actually guarantees it: an
emitted Polygon has exactly one ring with at least 4 vertices whose first
and last vertices are componentwise within `1e-8` of each other (equal
whenever the closing copy was appended, merely within tolerance when the
ring arrived already closed); an emitted LineString has at least 1 vertex
(a fully degenerate polyline collapses to a single retained vertex but is
still emitted); a Point feature carries exactly one position; a LINE feature
carries exactly two positions with each endpoint's Z preserved. -/
theorem C4_shape_invariant_amended (b1 b2 : Bool) (c1 c2 : List V3)
    (rings : List (List V3)) (pts : List V3) (x y z : ℚ) (s e : V3)
    (h1 : extract_polyline b1 c1 = some (PolyGeom.polygon rings))
    (h2 : extract_polyline b2 c2 = some (PolyGeom.lineString pts)) :
    (∀ r ∈ rings, 4 ≤ r.length ∧ closeV (r.headD v0) (r.getLastD v0)) ∧
    1 ≤ pts.length ∧
    extract_point x y z = Geometry.point [x, y, z] ∧
    extract_line s e = Geometry.lineString [[s.x, s.y, s.z], [e.x, e.y, e.z]] := by
  obtain ⟨hb, hrings, hlen⟩ := extract_polyline_polygon b1 c1 rings h1
  refine ⟨?_, extract_polyline_lineString b2 c2 pts h2, rfl, rfl⟩
  intro r hr
  rw [hrings] at hr
  rcases List.mem_singleton.mp hr with rfl
  exact ⟨hlen, closeRing_first_last (dedup c1) hlen⟩

/-- C4, witness: a concrete square Polygon and a concrete open LineString. -/
theorem C4_witness :
    4 ≤ ([⟨0, 0, 0⟩, ⟨1, 0, 0⟩, ⟨0, 1, 0⟩, ⟨0, 0, 0⟩] : List V3).length ∧
    1 ≤ ([⟨0, 0, 0⟩, ⟨7, 0, 0⟩] : List V3).length := by
  have h21 : ¬ closeV ⟨1, 0, 0⟩ ⟨0, 0, 0⟩ := by norm_num [closeV, tol, abs_lt]
  have h32 : ¬ closeV ⟨0, 1, 0⟩ ⟨1, 0, 0⟩ := by norm_num [closeV, tol, abs_lt]
  have h70 : ¬ closeV ⟨7, 0, 0⟩ ⟨0, 0, 0⟩ := by norm_num [closeV, tol, abs_lt]
  have hfar : ¬ closeV (⟨0, 0, 0⟩ : V3) ⟨0, 1, 0⟩ := by
    norm_num [closeV, tol, abs_lt]
  have hd1 : dedup [⟨0, 0, 0⟩, ⟨1, 0, 0⟩, ⟨0, 1, 0⟩]
      = [⟨0, 0, 0⟩, ⟨1, 0, 0⟩, ⟨0, 1, 0⟩] := by
    simp [dedup, dedupAux, h21, h32]
  have hd2 : dedup [⟨0, 0, 0⟩, ⟨7, 0, 0⟩] = [⟨0, 0, 0⟩, ⟨7, 0, 0⟩] := by
    simp [dedup, dedupAux, h70]
  have h1 : extract_polyline true [⟨0, 0, 0⟩, ⟨1, 0, 0⟩, ⟨0, 1, 0⟩]
      = some (PolyGeom.polygon [[⟨0, 0, 0⟩, ⟨1, 0, 0⟩, ⟨0, 1, 0⟩, ⟨0, 0, 0⟩]]) := by
    simp [extract_polyline, hd1, closeRing, hfar]
  have h2 : extract_polyline false [⟨0, 0, 0⟩, ⟨7, 0, 0⟩]
      = some (PolyGeom.lineString [⟨0, 0, 0⟩, ⟨7, 0, 0⟩]) := by
    simp [extract_polyline, hd2, closeRing]
  have hmain := C4_shape_invariant_amended true false
    [⟨0, 0, 0⟩, ⟨1, 0, 0⟩, ⟨0, 1, 0⟩] [⟨0, 0, 0⟩, ⟨7, 0, 0⟩]
    [[⟨0, 0, 0⟩, ⟨1, 0, 0⟩, ⟨0, 1, 0⟩, ⟨0, 0, 0⟩]]
    [⟨0, 0, 0⟩, ⟨7, 0, 0⟩] 0 0 0 ⟨0, 0, 0⟩ ⟨1, 1, 1⟩ h1 h2
  exact ⟨(hmain.1 _ (List.mem_singleton.mpr rfl)).1, hmain.2.1⟩

/-- Unfolding equation for one step of the batch loop. -/
theorem runBatch_cons {α : Type} (f : FileInput α) (fs : List (FileInput α)) :
    runBatch (f :: fs) =
      match processFile f with
      | .error e => ([], some e)
      | .ok feats => (feats :: (runBatch fs).1, (runBatch fs).2) := rfl

/-- A position without exactly 3 components is skipped by the transform
loop. -/
theorem transformCoord_none (f : ℚ → ℚ → ℚ × ℚ) (c : List ℚ)
    (hc : c.length ≠ 3) : transformCoord f c = none := by
  match c with
  | [] => rfl
  | [a] => rfl
  | [a, b] => rfl
  | [a, b, d] => exact absurd rfl hc
  | a :: b :: d :: e :: t => rfl

/-- C7. For Polygon and LineString features whose positions all have exactly
3 components, `transform_geometry` acts as a structure-preserving map: the
ring count, the vertex count of every ring (and of the LineString), and the
vertex order are preserved exactly, every transformed position is again a
triple whose third component is the input vertex's Z unchanged, and a
position that does not have exactly 3 components is silently dropped from
the per-vertex transform (the feature itself is still returned). -/
theorem C7_transform_structure (f : ℚ → ℚ → ℚ × ℚ)
    (rings : List (List (List ℚ))) (cs : List (List ℚ)) (c : List ℚ)
    (hp : ∀ r ∈ rings, ∀ a ∈ r, a.length = 3)
    (hl : ∀ a ∈ cs, a.length = 3)
    (hc : c.length ≠ 3) :
    transform_geometry f (Geometry.polygon rings)
      = Geometry.polygon (rings.map fun r => r.map (transformCoordTotal f)) ∧
    transform_geometry f (Geometry.lineString cs)
      = Geometry.lineString (cs.map (transformCoordTotal f)) ∧
    (∀ x y z : ℚ, transformCoordTotal f [x, y, z] = [(f x y).1, (f x y).2, z]) ∧
    transformCoord f c = none := by
  refine ⟨?_, ?_, fun x y z => rfl, transformCoord_none f c hc⟩
  · simp only [transform_geometry, Geometry.polygon.injEq]
    exact List.map_congr_left fun r hr => filterMap_transformCoord f r (hp r hr)
  · simp only [transform_geometry, Geometry.lineString.injEq]
    exact filterMap_transformCoord f cs hl

/-- C7, witness: a one-ring Polygon, a two-vertex LineString, a malformed
2-component position, and the axis-swapping transformer. -/
theorem C7_witness :
    (∀ r ∈ [[[0, 0, 1], [2, 0, 3], [0, 2, 4], [0, 0, 1]]],
      ∀ a ∈ r, List.length (a : List ℚ) = 3) ∧
    (∀ a ∈ [[1, 1, 7], [2, 2, 8]], List.length (a : List ℚ) = 3) ∧
    List.length ([1, 2] : List ℚ) ≠ 3 ∧
    transform_geometry (fun x y => (y, x))
        (Geometry.polygon [[[0, 0, 1], [2, 0, 3], [0, 2, 4], [0, 0, 1]]])
      = Geometry.polygon
          ([[[0, 0, 1], [2, 0, 3], [0, 2, 4], [0, 0, 1]]].map fun r =>
            r.map (transformCoordTotal fun x y => (y, x))) := by
  have hp : ∀ r ∈ [[[0, 0, 1], [2, 0, 3], [0, 2, 4], [0, 0, 1]]],
      ∀ a ∈ r, List.length (a : List ℚ) = 3 := by decide
  have hl : ∀ a ∈ [[1, 1, 7], [2, 2, 8]], List.length (a : List ℚ) = 3 := by
    decide
  have hc : List.length ([1, 2] : List ℚ) ≠ 3 := by decide
  exact ⟨hp, hl, hc,
    (C7_transform_structure (fun x y => (y, x))
      [[[0, 0, 1], [2, 0, 3], [0, 2, 4], [0, 0, 1]]]
      [[1, 1, 7], [2, 2, 8]] [1, 2] hp hl hc).1⟩

/-- C8. A per-entity exception is caught inside `_process_entity`: the
accumulated feature list is unchanged, one log entry is emitted, the entity
loop continues with the next entity, and the remaining entities still
contribute their features after the failing one — a single malformed entity
never aborts processing of the file. -/
theorem C8_entity_error_skipped {α : Type} (s : PState α) (msg : String)
    (rest : List (Except String (Option α))) :
    (processEntity s (Except.error msg)).features = s.features ∧
    (processEntity s (Except.error msg)).logs = s.logs ++ [msg] ∧
    processEntities s (Except.error msg :: rest)
      = processEntities (processEntity s (Except.error msg)) rest ∧
    (processEntities s (Except.error msg :: rest)).features
      = s.features ++ (processEntities ⟨[], []⟩ rest).features := by
  refine ⟨rfl, rfl, rfl, ?_⟩
  rw [processEntities_cons, processEntities_features]
  rfl

/-- C9, counterexample. In a batch of three files where the second fails to
open, the third file — which alone would contribute a feature — produces no
output: the exception from `process_dxf_file` propagates out of the `for`
loop in `main` into its surrounding `except` arm, which ends the run, so
the batch does NOT continue with the next file as the claim says. -/
theorem C9_counterexample :
    runBatch [(Except.ok [Except.ok (some 1)] : FileInput ℕ),
        Except.error "open failed",
        Except.ok [Except.ok (some 2)]]
      = ([[1]], some "open failed") ∧
    runBatch [(Except.ok [Except.ok (some 2)] : FileInput ℕ)] = ([[2]], none) :=
  ⟨rfl, rfl⟩

/-- C9, amended: a failure to open or parse one file is raised to the caller
(`process_dxf_file` re-raises) and ABORTS the batch — the batch result is
the same whatever files follow the failing one, and a failing first file
yields no outputs at all — while per-entity failures within a file remain
recoverable skip-and-continue. -/
theorem C9_file_error_aborts_batch {α : Type} (gs fs : List (FileInput α))
    (e msg : String) (s : PState α)
    (rest : List (Except String (Option α))) :
    runBatch (gs ++ Except.error e :: fs) = runBatch (gs ++ [Except.error e]) ∧
    runBatch ((Except.error e : FileInput α) :: fs) = ([], some e) ∧
    processEntities s (Except.error msg :: rest)
      = processEntities { s with logs := s.logs ++ [msg] } rest := by
  refine ⟨?_, rfl, rfl⟩
  induction gs with
  | nil => rfl
  | cons g gs ih =>
    rw [List.cons_append, List.cons_append, runBatch_cons, runBatch_cons, ih]

/-- C10. For every LWPOLYLINE vertex whose third component is of integer or
boolean runtime type, extraction assigns the entity's base elevation as that
vertex's Z instead of the vertex's own third component (likewise when there
is no third component); only a float-typed third component is taken as the
vertex Z; and the base elevation is `0.0` when the entity has no elevation
attribute. -/
theorem C10_lwpolyline_vertex_z (base x y : ℚ) (n : ℤ) (b : Bool) (q : ℚ)
    (cl : Bool) (pts : List LWPoint) :
    lwVertex base ⟨x, y, some (PyVal.pint n)⟩ = ⟨x, y, base⟩ ∧
    lwVertex base ⟨x, y, some (PyVal.pbool b)⟩ = ⟨x, y, base⟩ ∧
    lwVertex base ⟨x, y, some (PyVal.pfloat q)⟩ = ⟨x, y, q⟩ ∧
    lwVertex base ⟨x, y, none⟩ = ⟨x, y, base⟩ ∧
    baseElevation? ElevAttr.eAbsent = some 0 ∧
    extract_lwpolyline ElevAttr.eAbsent cl pts
      = extract_polyline cl (pts.map (lwVertex 0)) := by
  exact ⟨rfl, rfl, rfl, rfl, rfl, rfl⟩

/-- C5. Circle tessellation returns exactly 33 vertices (`num_points = 32`
plus the explicit closing vertex) at angles `2π·i/32` for `i` in `[0, 32]`,
all sharing the center's Z; vertex 0 and vertex 32 both equal
`(cx + r, cy, cz)`, so the ring is explicitly closed, and the result is
packaged as a Polygon with one ring. Arc tessellation returns exactly 17
vertices packaged as a LineString. -/
theorem C5_curve_tessellation (cx cy cz r sa ea : ℝ) :
    (circlePoints cx cy cz r).length = 33 ∧
    circlePoints cx cy cz r = (List.range 33).map
      (fun i => (cx + r * Real.cos ((i * (2 * Real.pi)) / 32),
                 cy + r * Real.sin ((i * (2 * Real.pi)) / 32), cz)) ∧
    (∀ p ∈ circlePoints cx cy cz r, p.2.2 = cz) ∧
    (circlePoints cx cy cz r).getD 0 (0, 0, 0) = (cx + r, cy, cz) ∧
    (circlePoints cx cy cz r).getD 32 (0, 0, 0) = (cx + r, cy, cz) ∧
    extract_circle cx cy cz r = RGeometry.polygon [circlePoints cx cy cz r] ∧
    (arcPoints cx cy cz r sa ea).length = 17 ∧
    extract_arc cx cy cz r sa ea
      = RGeometry.lineString
          (arcPoints cx cy cz r (radians sa) (radians ea)) := by
  refine ⟨by simp [circlePoints], ?_, ?_, ?_, ?_, rfl, by simp [arcPoints], rfl⟩
  · simp only [circlePoints]
    exact List.map_congr_left fun i _ => rfl
  · intro p hp
    simp only [circlePoints, List.mem_map] at hp
    obtain ⟨i, _, rfl⟩ := hp
    rfl
  · have h0 : (circlePoints cx cy cz r).getD 0 (0, 0, 0)
        = circleVertex cx cy cz r 0 := rfl
    rw [h0]
    simp [circleVertex]
  · have h32 : (circlePoints cx cy cz r).getD 32 (0, 0, 0)
        = circleVertex cx cy cz r 32 := rfl
    have hang : ((32 : ℕ) : ℝ) * (2 * Real.pi) / 32 = 2 * Real.pi := by
      push_cast
      ring
    rw [h32]
    simp [circleVertex, hang, Real.cos_two_pi, Real.sin_two_pi]

/-- C5, witness: the tessellation facts evaluated at the concrete circle of
radius 1 centered at `(0, 0, 7)`. -/
theorem C5_witness :
    (circlePoints 0 0 7 1).length = 33 ∧
    (circleVertex 0 0 7 1 5).2.2 = 7 ∧
    (circlePoints 0 0 7 1).getD 0 (0, 0, 0) = (0 + 1, 0, 7) := by
  have h := C5_curve_tessellation 0 0 7 1 0 1
  refine ⟨h.1, ?_, h.2.2.2.1⟩
  exact h.2.2.1 (circleVertex 0 0 7 1 5)
    (List.mem_map_of_mem _ (List.mem_range.mpr (by norm_num)))

/-- C6. For every ARC entity the start and end angles are converted from
degrees to radians and, when the end angle is smaller than the start angle,
`2π` is added to the end angle; the 17 tessellated vertices then sweep at
equal angular steps of `(end' - start)/16` in the strictly increasing-angle
direction from the start angle (vertex 0) to the adjusted end angle (vertex
16) inclusive, with Z constant at the center's Z. In particular, for an arc
from 350° to 10° vertex 8 sits exactly at angle `2π`, i.e. the sweep passes
through the 360°/0° boundary rather than going the reverse short way
around. -/
theorem C6_arc_wraparound (cx cy cz r saDeg eaDeg : ℝ)
    (hw : eaDeg < saDeg) (hspan : saDeg - eaDeg < 360) :
    arcAdjustedEnd (radians saDeg) (radians eaDeg)
      = radians eaDeg + 2 * Real.pi ∧
    arcAngle (radians saDeg) (radians eaDeg) 0 = radians saDeg ∧
    arcAngle (radians saDeg) (radians eaDeg) 16
      = radians eaDeg + 2 * Real.pi ∧
    (∀ i : ℕ, arcAngle (radians saDeg) (radians eaDeg) (i + 1)
        - arcAngle (radians saDeg) (radians eaDeg) i
        = (radians eaDeg + 2 * Real.pi - radians saDeg) / 16) ∧
    (∀ i j : ℕ, i < j → arcAngle (radians saDeg) (radians eaDeg) i
        < arcAngle (radians saDeg) (radians eaDeg) j) ∧
    (∀ p ∈ arcPoints cx cy cz r (radians saDeg) (radians eaDeg), p.2.2 = cz) ∧
    arcAngle (radians 350) (radians 10) 8 = 2 * Real.pi := by
  have hpi : (0 : ℝ) < Real.pi / 180 := by positivity
  have hwr : radians eaDeg < radians saDeg := by
    simp only [radians]
    exact mul_lt_mul_of_pos_right hw hpi
  have hadj : arcAdjustedEnd (radians saDeg) (radians eaDeg)
      = radians eaDeg + 2 * Real.pi := by
    rw [arcAdjustedEnd, if_pos hwr]
  have hD : 0 < radians eaDeg + 2 * Real.pi - radians saDeg := by
    have h2 : (saDeg - eaDeg) * (Real.pi / 180) < 360 * (Real.pi / 180) :=
      mul_lt_mul_of_pos_right hspan hpi
    have h3 : (360 : ℝ) * (Real.pi / 180) = 2 * Real.pi := by ring
    have h1 : radians saDeg - radians eaDeg < 2 * Real.pi := by
      simp only [radians]
      rw [← sub_mul]
      linarith
    linarith
  refine ⟨hadj, by simp [arcAngle], ?_, ?_, ?_, ?_, ?_⟩
  · rw [arcAngle, hadj]
    push_cast
    ring
  · intro i
    rw [arcAngle, arcAngle, hadj]
    push_cast
    ring
  · intro i j hij
    rw [arcAngle, arcAngle, hadj]
    have hij' : (i : ℝ) < j := Nat.cast_lt.mpr hij
    have hmul := mul_lt_mul_of_pos_right hij' hD
    linarith
  · intro p hp
    simp only [arcPoints, List.mem_map] at hp
    obtain ⟨i, _, rfl⟩ := hp
    rfl
  · have h350 : radians 10 < radians 350 := by
      simp only [radians]
      exact mul_lt_mul_of_pos_right (by norm_num) hpi
    rw [arcAngle, arcAdjustedEnd, if_pos h350]
    simp only [radians]
    push_cast
    ring

/-- C6, witness: the arc from 350° to 10° of the specification's end-to-end
scenario. -/
theorem C6_witness :
    ((10 : ℝ) < 350) ∧ ((350 : ℝ) - 10 < 360) ∧
    arcAngle (radians 350) (radians 10) 16 = radians 10 + 2 * Real.pi ∧
    arcAngle (radians 350) (radians 10) 8 = 2 * Real.pi := by
  have h := C6_arc_wraparound 0 0 0 5 350 10 (by norm_num) (by norm_num)
  exact ⟨by norm_num, by norm_num, h.2.2.1, h.2.2.2.2.2.2⟩

end Dxf2Geojson
